import Mathlib

/-!
Verification of the Task Orchestration & Page-Generation state machine and of
the frontend helper logic of the page-generator repository.

The repository's backend (Django/Celery orchestrator) is not present in the
source tree; only its callers (the React frontend), build scripts and the
container definition are.  The orchestrator, invite coordinator, identity
generator and efficiency aggregator are therefore modelled from the
specification text (each such definition carries a doc comment starting with
"Modelled from the spec:").  The frontend helpers (`App.handleCreateTask`, the
`Benchmark` form clamps, `extractPageId`) are shallowly embedded from the
TypeScript source itself.
-/

namespace PageGen

/-- Task lifecycle status, per the spec's closed enum
`pending | running | completed | failed | cancelled`. -/
inductive TaskStatus where
  | pending
  | running
  | completed
  | failed
  | cancelled
  deriving DecidableEq, Repr

/-- Whether a status is terminal (`completed`, `failed` or `cancelled`). -/
def TaskStatus.isTerminal : TaskStatus → Bool
  | .completed => true
  | .failed => true
  | .cancelled => true
  | _ => false

/-- Modelled from the spec: the `Task` record of the data model (§3) — base
name, requested page count, status, the two progress counters and the
cooperative cancellation flag set by `cancel`.  Timestamps are omitted: no
claim under verification mentions them. -/
structure Task where
  base_name : String
  num_pages : Nat
  status : TaskStatus
  pages_created : Nat
  pages_failed : Nat
  cancel_requested : Bool
  error_message : Option String
  deriving DecidableEq, Repr

/-- Error taxonomy of the spec (§7), restricted to the synchronous errors the
claims mention. -/
inductive OrchError where
  | validation (msg : String)
  | invalidState
  | notFound
  deriving DecidableEq, Repr

/-- Modelled from the spec: `submit(base_name, count, …) -> Task` (§4.1) —
validates `1 <= count <= 100` and non-empty `base_name`, failing with
`ValidationError` otherwise, and creates a Task in `pending` status with both
counters at 0.  The model performs no automation-driver call: `submit` is a
pure function of its arguments. -/
def submit (base_name : String) (count : Nat) : Except OrchError Task :=
  if 1 ≤ count ∧ count ≤ 100 ∧ base_name ≠ "" then
    .ok { base_name := base_name
          num_pages := count
          status := .pending
          pages_created := 0
          pages_failed := 0
          cancel_requested := false
          error_message := none }
  else
    .error (.validation "count must be in 1..100 and base_name non-empty")

/-- Modelled from the spec: `cancel(task_id) -> Task` (§4.1) — fails with
`InvalidStateError` unless status is `running` or `pending`; sets the
cooperative cancellation flag for a `running` task and transitions a `pending`
task directly to `cancelled`. -/
def cancel (t : Task) : Except OrchError Task :=
  match t.status with
  | .running => .ok { t with cancel_requested := true }
  | .pending => .ok { t with status := .cancelled }
  | _ => .error .invalidState

/-- Modelled from the spec: one transition of the orchestrator state machine
(§4.1).  `start` moves a pending task to running; `pageSuccess`/`pageFailure`
are the per-index outcomes of the page-generation loop (only taken while
running, with the cancellation flag unset and indices remaining);
`sessionFail` is the whole-session abort that sets status `failed` with an
`error_message`; `requestCancel`/`cancelPending` are the effects of `cancel`;
`observeCancel` is the loop observing the flag at an iteration boundary;
`finish` sets `completed` once every index has been processed. -/
inductive Step : Task → Task → Prop where
  | start (t : Task) :
      t.status = .pending →
      Step t { t with status := .running }
  | pageSuccess (t : Task) :
      t.status = .running →
      t.cancel_requested = false →
      t.pages_created + t.pages_failed < t.num_pages →
      Step t { t with pages_created := t.pages_created + 1 }
  | pageFailure (t : Task) :
      t.status = .running →
      t.cancel_requested = false →
      t.pages_created + t.pages_failed < t.num_pages →
      Step t { t with pages_failed := t.pages_failed + 1 }
  | sessionFail (t : Task) (msg : String) :
      t.status = .running →
      t.cancel_requested = false →
      t.pages_created + t.pages_failed < t.num_pages →
      Step t { t with status := .failed, error_message := some msg }
  | requestCancel (t : Task) :
      t.status = .running →
      Step t { t with cancel_requested := true }
  | cancelPending (t : Task) :
      t.status = .pending →
      Step t { t with status := .cancelled }
  | observeCancel (t : Task) :
      t.status = .running →
      t.cancel_requested = true →
      t.pages_created + t.pages_failed < t.num_pages →
      Step t { t with status := .cancelled }
  | finish (t : Task) :
      t.status = .running →
      t.pages_created + t.pages_failed = t.num_pages →
      Step t { t with status := .completed }

/-- Reachable task states: a valid `submit` output, followed by any number of
orchestrator transitions. -/
inductive Reach : Task → Prop where
  | init (b : String) (n : Nat) (t : Task) : submit b n = .ok t → Reach t
  | step (t t' : Task) : Reach t → Step t t' → Reach t'

/-- The requested page count is never changed by a transition. -/
theorem Step.num_pages_eq {t t' : Task} (h : Step t t') : t'.num_pages = t.num_pages := by
  cases h <;> rfl

/-- Counters never decrease across a transition. -/
theorem Step.counters_le {t t' : Task} (h : Step t t') :
    t.pages_created ≤ t'.pages_created ∧ t.pages_failed ≤ t'.pages_failed := by
  cases h <;> simp

/-- No transition leaves a terminal status: every `Step` starts from a
`pending` or `running` task. -/
theorem Step.not_terminal {t t' : Task} (h : Step t t') :
    t.status.isTerminal = false := by
  cases h <;> simp_all [TaskStatus.isTerminal]

/-- Core inductive invariant of reachable task states: the requested count is
in 1..100, the processed count never exceeds it, a `pending` task has
processed nothing, and a `completed` task has processed everything. -/
theorem reach_inv {t : Task} (h : Reach t) :
    1 ≤ t.num_pages ∧ t.num_pages ≤ 100 ∧
    t.pages_created + t.pages_failed ≤ t.num_pages ∧
    (t.status = .pending → t.pages_created = 0 ∧ t.pages_failed = 0) ∧
    (t.status = .completed → t.pages_created + t.pages_failed = t.num_pages) := by
  induction h with
  | init b n t hsub =>
    unfold submit at hsub
    split at hsub
    · rename_i hcond
      cases hsub
      simpa using ⟨hcond.1, hcond.2.1⟩
    · exact absurd hsub (by simp)
  | step t t' _ hstep ih =>
    obtain ⟨h1, h2, h3, h4, h5⟩ := ih
    cases hstep <;> simp_all <;> omega

/-- Modelled from the spec: progress is reported as
`round((pages_created + pages_failed) / requested_count * 100)` (§4.1). -/
def progress (t : Task) : ℤ :=
  round ((((t.pages_created : ℚ) + (t.pages_failed : ℚ)) / (t.num_pages : ℚ)) * 100)

/-- Rounding is monotone on the rationals. -/
theorem round_mono_q {x y : ℚ} (h : x ≤ y) : round x ≤ round y := by
  rw [round_eq, round_eq]
  exact Int.floor_le_floor (by linarith)

/-- A concrete freshly-submitted task, used to instantiate the invariant
theorems. -/
def tEx0 : Task :=
  { base_name := "A"
    num_pages := 2
    status := .pending
    pages_created := 0
    pages_failed := 0
    cancel_requested := false
    error_message := none }

/-- The example task after `start`. -/
def tEx1 : Task := { tEx0 with status := .running }

/-- The example task after a whole-session failure on its first page. -/
def tExSF : Task := { tEx1 with status := .failed, error_message := some "account session blocked" }

theorem reach_tEx0 : Reach tEx0 := Reach.init "A" 2 tEx0 rfl

theorem step_tEx01 : Step tEx0 tEx1 := Step.start tEx0 rfl

theorem reach_tEx1 : Reach tEx1 := Reach.step _ _ reach_tEx0 step_tEx01

theorem reach_tExSF : Reach tExSF :=
  Reach.step _ _ reach_tEx1 (Step.sessionFail tEx1 "account session blocked" rfl rfl (by decide))

/-- C1: counterexample — a reachable task that aborted with a session failure
is terminal and not cancelled, yet `pages_created + pages_failed` (= 0) is
strictly below the requested count (= 2), so the claim's equality clause fails
as stated. -/
theorem task_sum_eq_requested_fails_on_session_failure :
    Reach tExSF ∧ tExSF.status.isTerminal = true ∧ tExSF.status ≠ TaskStatus.cancelled ∧
    tExSF.pages_created + tExSF.pages_failed ≠ tExSF.num_pages :=
  ⟨reach_tExSF, by decide, by decide, by decide⟩

/-- C1 (amended): for every reachable task, `pages_created + pages_failed`
never exceeds the requested page count, with equality once status is
`completed`; along every orchestrator transition both counters are
non-decreasing and no transition leaves a terminal status, so a task never
returns to `pending` or `running` once `completed`, `failed` or `cancelled`
is reached. -/
theorem task_counter_status_invariants :
    (∀ t : Task, Reach t →
      t.pages_created + t.pages_failed ≤ t.num_pages ∧
      (t.status = TaskStatus.completed → t.pages_created + t.pages_failed = t.num_pages)) ∧
    (∀ t t' : Task, Step t t' →
      t.pages_created ≤ t'.pages_created ∧ t.pages_failed ≤ t'.pages_failed ∧
      t.status.isTerminal = false) := by
  constructor
  · intro t h
    exact ⟨(reach_inv h).2.2.1, (reach_inv h).2.2.2.2⟩
  · intro t t' h
    exact ⟨h.counters_le.1, h.counters_le.2, h.not_terminal⟩

/-- C1 witness: the amended invariant instantiated at a concrete reachable
task and a concrete transition. -/
theorem task_counter_status_invariants_witness :
    tEx1.pages_created + tEx1.pages_failed ≤ tEx1.num_pages ∧
    tEx0.status.isTerminal = false :=
  ⟨(task_counter_status_invariants.1 tEx1 reach_tEx1).1,
   (task_counter_status_invariants.2 tEx0 tEx1 step_tEx01).2.2⟩

/-- Division by a natural denominator preserves ≤ of numerators (also when the
denominator is 0, when both sides collapse to 0). -/
theorem div_nat_mono {a b : ℚ} {n : Nat} (h : a ≤ b) : a / (n : ℚ) ≤ b / (n : ℚ) := by
  rw [div_eq_mul_inv, div_eq_mul_inv]
  exact mul_le_mul_of_nonneg_right h (inv_nonneg.2 (by positivity))

/-- C2 (confirmed): progress equals
`round((pages_created + pages_failed) / requested_count * 100)`, lies in
`[0, 100]` on every reachable task, and never decreases across any
orchestrator transition. -/
theorem progress_formula_bounds_monotone :
    (∀ t : Task,
      progress t = round ((((t.pages_created : ℚ) + (t.pages_failed : ℚ)) / (t.num_pages : ℚ)) * 100)) ∧
    (∀ t : Task, Reach t → 0 ≤ progress t ∧ progress t ≤ 100) ∧
    (∀ t t' : Task, Step t t' → progress t ≤ progress t') := by
  refine ⟨fun t => rfl, fun t h => ?_, fun t t' hs => ?_⟩
  · obtain ⟨h1, _, h3, _, _⟩ := reach_inv h
    have hn : (0 : ℚ) < (t.num_pages : ℚ) := by exact_mod_cast h1
    have hq0 : (0 : ℚ) ≤ (((t.pages_created : ℚ) + (t.pages_failed : ℚ)) / (t.num_pages : ℚ)) * 100 := by
      positivity
    have hq1 : (((t.pages_created : ℚ) + (t.pages_failed : ℚ)) / (t.num_pages : ℚ)) ≤ 1 := by
      rw [div_le_one hn]
      exact_mod_cast h3
    have hq100 : (((t.pages_created : ℚ) + (t.pages_failed : ℚ)) / (t.num_pages : ℚ)) * 100 ≤ 100 := by
      nlinarith
    constructor
    · have := round_mono_q hq0
      simpa using this
    · have := round_mono_q hq100
      rwa [show ((100 : ℚ)) = ((100 : ℤ) : ℚ) by norm_num, round_intCast] at this
  · have hnum := hs.num_pages_eq
    have hc := hs.counters_le
    unfold progress
    rw [hnum]
    apply round_mono_q
    apply mul_le_mul_of_nonneg_right _ (by norm_num : (0:ℚ) ≤ 100)
    apply div_nat_mono
    exact add_le_add (Nat.cast_le.2 hc.1) (Nat.cast_le.2 hc.2)

/-- C2 witness: bounds at a concrete reachable task and monotonicity along a
concrete transition. -/
theorem progress_formula_bounds_monotone_witness :
    (0 ≤ progress tEx1 ∧ progress tEx1 ≤ 100) ∧ progress tEx0 ≤ progress tEx1 :=
  ⟨progress_formula_bounds_monotone.2.1 tEx1 reach_tEx1,
   progress_formula_bounds_monotone.2.2 tEx0 tEx1 step_tEx01⟩

/-- C3 (confirmed): `submit` accepts a request exactly when
`1 <= count <= 100` and the base name is non-empty; every rejection is a
`ValidationError` (and, the model being a pure function, no state is created);
every accepted request yields a `pending` task with zero counters and no
error. -/
theorem submit_accepts_exactly_valid :
    ∀ (b : String) (c : Nat),
      ((∃ t, submit b c = .ok t) ↔ (1 ≤ c ∧ c ≤ 100 ∧ b ≠ "")) ∧
      (∀ e, submit b c = .error e → ∃ m, e = OrchError.validation m) ∧
      (∀ t, submit b c = .ok t →
        t.status = TaskStatus.pending ∧ t.pages_created = 0 ∧ t.pages_failed = 0 ∧
        t.base_name = b ∧ t.num_pages = c ∧ t.cancel_requested = false ∧
        t.error_message = none) := by
  intro b c
  unfold submit
  split
  · rename_i hcond
    refine ⟨⟨fun _ => hcond, fun _ => ⟨_, rfl⟩⟩, ?_, ?_⟩
    · intro e he
      simp at he
    · intro t ht
      cases ht
      simp
  · rename_i hcond
    refine ⟨⟨fun ⟨t, ht⟩ => by simp at ht, fun h => absurd h hcond⟩, ?_, ?_⟩
    · intro e he
      exact ⟨_, (Except.error.injEq _ _).mp he.symm⟩
    · intro t ht
      simp at ht

/-- C3 witness: the acceptance criterion instantiated at a concrete valid
request. -/
theorem submit_accepts_exactly_valid_witness :
    ∃ t, submit "A" 3 = .ok t :=
  (submit_accepts_exactly_valid "A" 3).1.mpr ⟨by decide, by decide, by decide⟩

/-- C4 (confirmed): `cancel` succeeds exactly on `running` or `pending`
tasks, failing with `InvalidStateError` otherwise; a reachable `pending` task
cancels directly to `cancelled` with zero pages processed. -/
theorem cancel_state_spec :
    ∀ t : Task,
      ((∃ t', cancel t = .ok t') ↔
        (t.status = TaskStatus.running ∨ t.status = TaskStatus.pending)) ∧
      (t.status ≠ TaskStatus.running → t.status ≠ TaskStatus.pending →
        cancel t = .error OrchError.invalidState) ∧
      (Reach t → t.status = TaskStatus.pending →
        ∃ t', cancel t = .ok t' ∧ t'.status = TaskStatus.cancelled ∧
          t'.pages_created = 0 ∧ t'.pages_failed = 0) := by
  intro t
  refine ⟨?_, ?_, ?_⟩
  · unfold cancel
    cases hst : t.status <;> simp [hst]
  · intro h1 h2
    unfold cancel
    cases hst : t.status <;> simp_all
  · intro hr hp
    have hz := (reach_inv hr).2.2.2.1 hp
    refine ⟨{ t with status := .cancelled }, ?_, rfl, hz.1, hz.2⟩
    unfold cancel
    rw [hp]

/-- C4 witness: cancelling the concrete freshly-submitted (pending, reachable)
task yields `cancelled` with both counters zero. -/
theorem cancel_state_spec_witness :
    ∃ t', cancel tEx0 = .ok t' ∧ t'.status = TaskStatus.cancelled ∧
      t'.pages_created = 0 ∧ t'.pages_failed = 0 :=
  (cancel_state_spec tEx0).2.2 reach_tEx0 rfl

/-- Page-creation outcome status of a `GeneratedPage` record (§3). -/
inductive PageStatus where
  | creating
  | created
  | failed
  deriving DecidableEq, Repr

/-- Modelled from the spec: the fields of a `GeneratedPage` record that the
invite coordinator consults. -/
structure PageRec where
  page_id : String
  page_name : String
  status : PageStatus
  deriving DecidableEq, Repr

/-- Invite lifecycle status (§3). -/
inductive InviteStatus where
  | pending
  | accepted
  | declined
  | expired
  deriving DecidableEq, Repr

/-- Modelled from the spec: an `Invite` record (§3). -/
structure Invite where
  page_id : String
  invitee : String
  role : String
  status : InviteStatus
  deriving DecidableEq, Repr

/-- Result of the Automation Driver's invite operation (§6), passed to the
coordinator as an oracle argument. -/
structure DriverInviteResult where
  success : Bool
  error : Option String
  deriving DecidableEq, Repr

/-- Outcome of a `send` call: success indicator, the persisted invite record
(if any) and an error detail (if any). -/
structure SendOutcome where
  success : Bool
  invite : Option Invite
  error : Option String
  deriving DecidableEq, Repr

/-- Modelled from the spec: `send(page_id, invitee, role)` of the Invite
Coordinator (§4.2) — fails with `NotFoundError` if the page does not exist or
is not in `created` status; on driver success persists a `pending` invite and
returns success true; on driver failure returns success false with an error
detail and persists nothing. -/
def sendInvite (page : Option PageRec) (invitee role : String)
    (driver : DriverInviteResult) : Except OrchError SendOutcome :=
  match page with
  | none => .error .notFound
  | some p =>
    if p.status = PageStatus.created then
      if driver.success then
        .ok { success := true
              invite := some { page_id := p.page_id
                               invitee := invitee
                               role := role
                               status := .pending }
              error := none }
      else
        .ok { success := false
              invite := none
              error := some (driver.error.getD "invite failed") }
    else
      .error .notFound

/-- C5 (confirmed): `send` fails with `NotFoundError` whenever the page is
missing or not `created`; on driver failure it returns success false with an
error detail and persists no invite; a `pending` invite is persisted exactly
when the driver succeeds. -/
theorem sendInvite_spec :
    ∀ (page : Option PageRec) (invitee role : String) (driver : DriverInviteResult),
      ((page = none ∨ ∃ p, page = some p ∧ p.status ≠ PageStatus.created) →
        sendInvite page invitee role driver = .error OrchError.notFound) ∧
      (∀ p, page = some p → p.status = PageStatus.created → driver.success = false →
        ∃ o, sendInvite page invitee role driver = .ok o ∧
          o.success = false ∧ o.invite = none ∧ ∃ m, o.error = some m) ∧
      (∀ p, page = some p → p.status = PageStatus.created → driver.success = true →
        ∃ o, sendInvite page invitee role driver = .ok o ∧ o.success = true ∧
          ∃ inv, o.invite = some inv ∧ inv.status = InviteStatus.pending) := by
  intro page invitee role driver
  refine ⟨?_, ?_, ?_⟩
  · rintro (rfl | ⟨p, rfl, hp⟩)
    · rfl
    · simp [sendInvite, hp]
  · rintro p rfl hp hd
    refine ⟨{ success := false
              invite := none
              error := some (driver.error.getD "invite failed") }, ?_, rfl, rfl, ⟨_, rfl⟩⟩
    simp [sendInvite, hp, hd]
  · rintro p rfl hp hd
    refine ⟨{ success := true
              invite := some { page_id := p.page_id
                               invitee := invitee
                               role := role
                               status := .pending }
              error := none }, ?_, rfl, ⟨_, rfl, rfl⟩⟩
    simp [sendInvite, hp, hd]

/-- A concrete created page for instantiating the invite theorems. -/
def pgEx : PageRec := { page_id := "p1", page_name := "A - Emma", status := .created }

/-- C5 witness: a driver failure on a concrete created page returns success
false with an error detail and persists no invite. -/
theorem sendInvite_spec_witness :
    ∃ o, sendInvite (some pgEx) "user@example.com" "editor"
        { success := false, error := some "driver down" } = .ok o ∧
      o.success = false ∧ o.invite = none ∧ ∃ m, o.error = some m :=
  (sendInvite_spec (some pgEx) "user@example.com" "editor"
    { success := false, error := some "driver down" }).2.1 pgEx rfl rfl rfl

/-- Per-task figures the aggregator reads from the store: the two counters
and the number of `GeneratedPage` records the task owns. -/
structure TaskAgg where
  pages_created : Nat
  pages_failed : Nat
  page_records : Nat
  deriving DecidableEq, Repr

/-- The efficiency report record: exactly the six fields `total_tasks`,
`total_pages`, `pages_created`, `pages_failed`, `success_rate`,
`avg_pages_per_task` (§4.4). -/
structure Report where
  total_tasks : Nat
  total_pages : Nat
  pages_created : Nat
  pages_failed : Nat
  success_rate : ℚ
  avg_pages_per_task : ℚ
  deriving DecidableEq, Repr

/-- Modelled from the spec: `report()` of the Efficiency Aggregator (§4.4),
computed by scanning all tasks; `success_rate` and `avg_pages_per_task`
default to 0 when their denominators are 0. -/
def report (ts : List TaskAgg) : Report :=
  let pc := ts.foldl (fun a t => a + t.pages_created) 0
  let pf := ts.foldl (fun a t => a + t.pages_failed) 0
  let tp := ts.foldl (fun a t => a + t.page_records) 0
  { total_tasks := ts.length
    total_pages := tp
    pages_created := pc
    pages_failed := pf
    success_rate := if pc + pf = 0 then 0 else (pc : ℚ) / ((pc : ℚ) + (pf : ℚ)) * 100
    avg_pages_per_task := if ts.length = 0 then 0 else (tp : ℚ) / (ts.length : ℚ) }

/-- A left fold accumulating `f` over a list is the sum of the mapped list. -/
theorem foldl_add_eq_sum_map (f : TaskAgg → Nat) (ts : List TaskAgg) (a : Nat) :
    ts.foldl (fun acc t => acc + f t) a = a + (ts.map f).sum := by
  induction ts generalizing a with
  | nil => simp
  | cons t rest ih =>
    simp [List.foldl_cons, ih]
    omega

/-- C6 (confirmed): `report` returns exactly the six specified fields, with
`success_rate = pages_created / (pages_created + pages_failed) * 100`
(0 when the denominator is 0) and `avg_pages_per_task = total_pages /
total_tasks` (0 when `total_tasks` is 0); in particular over zero tasks both
ratios are 0 with no division fault. -/
theorem report_spec :
    (∀ ts : List TaskAgg,
      (report ts).total_tasks = ts.length ∧
      (report ts).total_pages = (ts.map TaskAgg.page_records).sum ∧
      (report ts).pages_created = (ts.map TaskAgg.pages_created).sum ∧
      (report ts).pages_failed = (ts.map TaskAgg.pages_failed).sum ∧
      (report ts).success_rate =
        (if (report ts).pages_created + (report ts).pages_failed = 0 then 0
         else ((report ts).pages_created : ℚ) /
           (((report ts).pages_created : ℚ) + ((report ts).pages_failed : ℚ)) * 100) ∧
      (report ts).avg_pages_per_task =
        (if (report ts).total_tasks = 0 then 0
         else ((report ts).total_pages : ℚ) / ((report ts).total_tasks : ℚ))) ∧
    report [] = { total_tasks := 0, total_pages := 0, pages_created := 0,
                  pages_failed := 0, success_rate := 0, avg_pages_per_task := 0 } := by
  refine ⟨fun ts => ?_, rfl⟩
  refine ⟨rfl, ?_, ?_, ?_, rfl, rfl⟩ <;>
    simpa using foldl_add_eq_sum_map _ ts 0

/-- The demographic attribute: the fixed set `{female, male, unknown}`. -/
inductive Gender where
  | female
  | male
  | unknown
  deriving DecidableEq, Repr

/-- Pool of female personal names the generator draws from. -/
def femaleNames : List String :=
  ["Emma", "Olivia", "Ava", "Sophia", "Isabella", "Mia", "Charlotte"]

/-- Pool of male personal names the generator draws from. -/
def maleNames : List String :=
  ["Liam", "Noah", "Oliver", "Elijah", "James", "William", "Henry"]

/-- Modelled from the spec: the Identity Generator's
`generate(base_name, sequence_number)` (§4.3).  The source of randomness is
supplied as an explicit oracle argument `r` (the spec does not require
determinism); the display name is always
`"<base_name> - <generated personal name>"`. -/
def generate (base_name : String) (seq : Nat) (r : Nat) : String × Gender :=
  let pool := if r % 2 = 0 then femaleNames else maleNames
  let personal := pool.getD ((seq + r / 2) % pool.length) "Alex"
  let gender := if r % 2 = 0 then Gender.female else Gender.male
  (base_name ++ " - " ++ personal, gender)

/-- C7 (confirmed): for every base name, sequence number and randomness
draw, the generated display name has the form
`"<base_name> - <personal name>"` (hence embeds the base name and is never
empty) and the demographic attribute is one of `female`, `male`,
`unknown`. -/
theorem generate_spec :
    ∀ (b : String) (seq r : Nat),
      (∃ personal : String, (generate b seq r).1 = b ++ " - " ++ personal) ∧
      (generate b seq r).1 ≠ "" ∧
      ((generate b seq r).2 = Gender.female ∨ (generate b seq r).2 = Gender.male ∨
        (generate b seq r).2 = Gender.unknown) := by
  intro b seq r
  obtain ⟨personal, hp⟩ : ∃ personal, (generate b seq r).1 = b ++ " - " ++ personal := ⟨_, rfl⟩
  refine ⟨⟨personal, hp⟩, ?_, ?_⟩
  · intro h
    rw [hp] at h
    have hlen := congrArg String.length h
    rw [String.length_append, String.length_append] at hlen
    have h3 : (" - " : String).length = 3 := rfl
    have h0 : ("" : String).length = 0 := rfl
    omega
  · unfold generate
    split <;> simp

/-- C7 witness: the generator instantiated at a concrete base name, sequence
number and randomness draw yields a non-empty display name. -/
theorem generate_spec_witness :
    (generate "Secure Auto Insurance" 0 0).1 ≠ "" :=
  (generate_spec "Secure Auto Insurance" 0 0).2.1

/-- The fields of a frontend `PageGenerationTask` that `handleCreateTask`
touches (frontend/src/types). -/
structure FrontTask where
  id : String
  num_pages : Nat
  base_page_name : String
  deriving DecidableEq, Repr

/-- The slice of the `App` component state that `handleCreateTask`
reads and writes. -/
structure AppState where
  tasks : List FrontTask
  selected : Option FrontTask
  error : String
  success : String
  loading : Bool
  deriving DecidableEq, Repr

/-- A call to the task service observable from `handleCreateTask`. -/
inductive ApiCall where
  | createTask
  | startTask (id : String)
  deriving DecidableEq, Repr

/-- Shallow embedding of `App.handleCreateTask` (App.tsx).  The two awaited
service calls are supplied as oracles: `createRes` is the result of
`taskService.createTask` (`none` = the call threw) and `startRes` the result
of `taskService.startTask` on a given task.  The returned list records, in
order, the service calls the handler performed.  The deferred
`setTimeout`-based clearing of the success banner is not part of the
handler's synchronous effect and is not modelled. -/
def handleCreateTask (st : AppState) (createRes : Option FrontTask)
    (startRes : FrontTask → Option FrontTask) : AppState × List ApiCall :=
  let st1 := { st with loading := true, error := "", success := "" }
  match createRes with
  | none =>
    ({ st1 with error := "Failed to create task", loading := false },
      [ApiCall.createTask])
  | some task =>
    let st2 := { st1 with
      tasks := task :: st1.tasks
      selected := some task
      success := "Task created! Starting automation for " ++ toString task.num_pages ++
        " pages with \"" ++ task.base_page_name ++ "\"..." }
    match startRes task with
    | some startedTask =>
      ({ st2 with
          tasks := st2.tasks.map (fun t => if t.id = task.id then startedTask else t)
          selected := some startedTask
          success := "Automation started! Creating " ++ toString task.num_pages ++
            " pages with \"" ++ task.base_page_name ++ "\""
          loading := false },
        [ApiCall.createTask, ApiCall.startTask task.id])
    | none =>
      ({ st2 with
          error := "Task created but failed to auto-start. Please start manually."
          loading := false },
        [ApiCall.createTask, ApiCall.startTask task.id])

/-- C8 (confirmed): every successful `createTask` is immediately followed by
exactly one `startTask` on the returned task's id (no retry); a failed create
performs no start; and when the auto-start fails the created task stays in
the task list and the manual-start error message is shown. -/
theorem handleCreateTask_autostart :
    ∀ (st : AppState) (createRes : Option FrontTask)
      (startRes : FrontTask → Option FrontTask),
      (∀ task, createRes = some task →
        (handleCreateTask st createRes startRes).2 =
          [ApiCall.createTask, ApiCall.startTask task.id]) ∧
      (createRes = none →
        (handleCreateTask st createRes startRes).2 = [ApiCall.createTask]) ∧
      (∀ task, createRes = some task → startRes task = none →
        task ∈ (handleCreateTask st createRes startRes).1.tasks ∧
        (handleCreateTask st createRes startRes).1.error =
          "Task created but failed to auto-start. Please start manually.") := by
  intro st createRes startRes
  refine ⟨?_, ?_, ?_⟩
  · rintro task rfl
    unfold handleCreateTask
    cases h : startRes task <;> simp [h]
  · rintro rfl
    rfl
  · rintro task rfl hstart
    unfold handleCreateTask
    simp [hstart]

/-- A concrete frontend task for instantiating the handler theorem. -/
def ftEx : FrontTask := { id := "t1", num_pages := 3, base_page_name := "Secure Auto Insurance" }

/-- An empty app state for instantiating the handler theorem. -/
def appStEx : AppState :=
  { tasks := [], selected := none, error := "", success := "", loading := false }

/-- C8 witness: the handler applied to a successful create whose auto-start
fails keeps the task and shows the manual-start message. -/
theorem handleCreateTask_autostart_witness :
    ftEx ∈ (handleCreateTask appStEx (some ftEx) (fun _ => none)).1.tasks ∧
    (handleCreateTask appStEx (some ftEx) (fun _ => none)).1.error =
      "Task created but failed to auto-start. Please start manually." :=
  (handleCreateTask_autostart appStEx (some ftEx) (fun _ => none)).2.2 ftEx rfl rfl

/-- JavaScript `v || d` applied to the result of `parseInt`: `none` models
`NaN` (unparsable input) and `0` is falsy, so both are replaced by the
default. -/
def jsOrDefault (v : Option Int) (d : Int) : Int :=
  match v with
  | none => d
  | some x => if x = 0 then d else x

/-- Shallow embedding of the Benchmark form's page-count handler:
`Math.max(1, Math.min(50, parseInt(value) || 1))`. -/
def benchCount (v : Option Int) : Int := max 1 (min 50 (jsOrDefault v 1))

/-- Shallow embedding of the Benchmark form's timeout handler:
`Math.max(10, Math.min(120, parseInt(value) || 30))`. -/
def benchTimeout (v : Option Int) : Int := max 10 (min 120 (jsOrDefault v 30))

/-- C9: counterexample — on the parsable input `"0"` (parsed value 0) the
stored timeout is 30, not `max(10, min(120, 0)) = 10` as the claim's formula
demands: `0` is falsy in JavaScript, so `|| 30` replaces it before the
clamp. -/
theorem benchTimeout_claim_fails_at_zero :
    benchTimeout (some 0) = 30 ∧
    max 10 (min 120 ((some (0 : Int)).getD 30)) = 10 ∧
    benchTimeout (some 0) ≠ max 10 (min 120 ((some (0 : Int)).getD 30)) := by
  refine ⟨by decide, by decide, by decide⟩

/-- C9 (amended): the stored count equals `max(1, min(50, parsed))` with
unparsable input treated as 1, and the stored timeout equals
`max(10, min(120, parsed))` with unparsable input *or a parsed value of 0*
treated as 30 (JavaScript `||` treats 0 as falsy); hence every benchmark
request from this form has count in `[1, 50]` — tighter than the task form's
`[1, 100]` — and timeout in `[10, 120]`. -/
theorem bench_clamps :
    ∀ v : Option Int,
      benchCount v = max 1 (min 50 (v.getD 1)) ∧
      benchTimeout v = max 10 (min 120 (if v.getD 30 = 0 then 30 else v.getD 30)) ∧
      1 ≤ benchCount v ∧ benchCount v ≤ 50 ∧
      10 ≤ benchTimeout v ∧ benchTimeout v ≤ 120 ∧
      (50 : Int) < 100 := by
  intro v
  have hrange : ∀ (lo hi y : Int), lo ≤ hi → lo ≤ max lo (min hi y) ∧ max lo (min hi y) ≤ hi :=
    fun lo hi y hlohi => ⟨le_max_left _ _, max_le hlohi (min_le_left _ _)⟩
  cases v with
  | none =>
    exact ⟨rfl, rfl, (hrange 1 50 1 (by norm_num)).1, (hrange 1 50 1 (by norm_num)).2,
      (hrange 10 120 30 (by norm_num)).1, (hrange 10 120 30 (by norm_num)).2, by norm_num⟩
  | some x =>
    by_cases hx : x = 0
    · subst hx
      exact ⟨by decide, by decide, by decide, by decide, by decide, by decide, by decide⟩
    · have hc : benchCount (some x) = max 1 (min 50 x) := by
        simp [benchCount, jsOrDefault, hx]
      have ht : benchTimeout (some x) = max 10 (min 120 x) := by
        simp [benchTimeout, jsOrDefault, hx]
      refine ⟨by simp [benchCount, jsOrDefault, hx], by simp [benchTimeout, jsOrDefault, hx],
        ?_, ?_, ?_, ?_, by norm_num⟩
      · rw [hc]; exact (hrange 1 50 x (by norm_num)).1
      · rw [hc]; exact (hrange 1 50 x (by norm_num)).2
      · rw [ht]; exact (hrange 10 120 x (by norm_num)).1
      · rw [ht]; exact (hrange 10 120 x (by norm_num)).2

/-- Fueled worker for JavaScript `String.prototype.split` with a non-empty
string separator, over strings as `List Char`: scans left to right, cutting
at each non-overlapping occurrence of `sep`; `acc` holds the reversed
characters of the current field.  The fuel only serves structural recursion;
`jsSplit` supplies enough for the zero-fuel branch to be unreachable. -/
def jsSplitFuel (sep : List Char) : Nat → List Char → List Char → List (List Char)
  | 0, s, acc => [acc.reverse ++ s]
  | _ + 1, [], acc => [acc.reverse]
  | fuel + 1, c :: rest, acc =>
    if sep.isPrefixOf (c :: rest) then
      acc.reverse :: jsSplitFuel sep fuel (rest.drop (sep.length - 1)) []
    else
      jsSplitFuel sep fuel rest (c :: acc)

/-- JavaScript `s.split(sep)` for a non-empty string separator. -/
def jsSplit (sep s : List Char) : List (List Char) :=
  jsSplitFuel sep (s.length + 1) s []

/-- JavaScript `s.includes(pat)`. -/
def jsIncludes (pat : List Char) : List Char → Bool
  | [] => pat.isPrefixOf []
  | c :: rest => pat.isPrefixOf (c :: rest) || jsIncludes pat rest

/-- JavaScript `url.replace(/\/$/, '')`: drop a single trailing slash. -/
def dropTrailingSlash (s : List Char) : List Char :=
  if s.getLast? = some '/' then s.dropLast else s

/-- The URL marker `extractPageId` looks for. -/
def pageMarker : List Char := "profile.php?id=".toList

/-- Shallow embedding of `extractPageId` (TestInvite.tsx): if the URL contains
`profile.php?id=`, return `url.split('profile.php?id=')[1]?.split('&')[0]`
(with `''` when the piece is missing); otherwise strip one trailing slash and
return the last `'/'`-separated segment (with `''` fallback). -/
def extractPageId (url : List Char) : List Char :=
  if jsIncludes pageMarker url then
    (jsSplit ['&'] ((jsSplit pageMarker url).getD 1 [])).headD []
  else
    (jsSplit ['/'] (dropTrailingSlash url)).getLastD []

/-- The fueled splitter never returns an empty list of fields. -/
theorem jsSplitFuel_ne_nil (sep : List Char) :
    ∀ (fuel : Nat) (s acc : List Char), jsSplitFuel sep fuel s acc ≠ [] := by
  intro fuel
  induction fuel with
  | zero =>
    intro s acc
    simp [jsSplitFuel]
  | succ n ih =>
    intro s acc
    cases s with
    | nil => simp [jsSplitFuel]
    | cons c rest =>
      simp only [jsSplitFuel]
      split
      · simp
      · exact ih rest (c :: acc)

/-- When the pattern occurs in the string, splitting yields at least two
fields. -/
theorem jsSplitFuel_length_two {pat : List Char} (hpat : pat ≠ []) :
    ∀ (fuel : Nat) (s acc : List Char), s.length < fuel → jsIncludes pat s = true →
      2 ≤ (jsSplitFuel pat fuel s acc).length := by
  intro fuel
  induction fuel with
  | zero =>
    intro s acc hlt _
    exact absurd hlt (Nat.not_lt_zero _)
  | succ n ih =>
    intro s acc hlt hinc
    cases s with
    | nil =>
      cases pat with
      | nil => exact absurd rfl hpat
      | cons p ps => simp [jsIncludes, List.isPrefixOf] at hinc
    | cons c rest =>
      simp only [jsIncludes, Bool.or_eq_true] at hinc
      simp only [jsSplitFuel]
      split
      · rename_i hpre
        have hne := jsSplitFuel_ne_nil pat n (rest.drop (pat.length - 1)) []
        have : 1 ≤ (jsSplitFuel pat n (rest.drop (pat.length - 1)) []).length :=
          Nat.one_le_iff_ne_zero.mpr (fun h => hne (List.length_eq_zero.mp h))
        simp only [List.length_cons]
        omega
      · rename_i hpre
        rcases hinc with hinc | hinc
        · exact absurd hinc hpre
        · exact ih rest (c :: acc) (by simp at hlt ⊢; omega) hinc

/-- Taking while `(· != a)` over an append stops inside the left part when it
contains `a`. -/
theorem takeWhile_append_of_mem {a : Char} :
    ∀ {l m : List Char}, a ∈ l →
      (l ++ m).takeWhile (· != a) = l.takeWhile (· != a) := by
  intro l
  induction l with
  | nil =>
    intro m h
    cases h
  | cons c cs ih =>
    intro m h
    by_cases hc : c = a
    · subst hc
      simp [List.takeWhile_cons]
    · have hmem : a ∈ cs := by
        cases h with
        | head => exact absurd rfl hc
        | tail _ h' => exact h'
      simp [List.takeWhile_cons, hc, ih hmem]

/-- Taking while `p` over an append passes the whole left part when every
element of it satisfies `p`. -/
theorem takeWhile_append_of_forall {p : Char → Bool} :
    ∀ {l m : List Char}, (∀ x ∈ l, p x = true) →
      (l ++ m).takeWhile p = l ++ m.takeWhile p := by
  intro l
  induction l with
  | nil =>
    intro m _
    simp
  | cons c cs ih =>
    intro m h
    have hc : p c = true := h c (List.mem_cons_self _ _)
    simp [List.takeWhile_cons, hc, ih (fun x hx => h x (List.mem_cons_of_mem _ hx))]

/-- A list every element of which satisfies `p` is its own `takeWhile p`. -/
theorem takeWhile_of_forall {p : Char → Bool} {l : List Char}
    (h : ∀ x ∈ l, p x = true) : l.takeWhile p = l := by
  have := takeWhile_append_of_forall (p := p) (l := l) (m := []) h
  simpa using this

/-- Splitting on a single character: the first field is the longest prefix
free of that character. -/
theorem jsSplitFuel_headD_single (a : Char) :
    ∀ (fuel : Nat) (s acc : List Char), s.length < fuel →
      (jsSplitFuel [a] fuel s acc).headD [] = acc.reverse ++ s.takeWhile (· != a) := by
  intro fuel
  induction fuel with
  | zero =>
    intro s acc h
    exact absurd h (Nat.not_lt_zero _)
  | succ n ih =>
    intro s acc h
    cases s with
    | nil => simp [jsSplitFuel]
    | cons c rest =>
      simp only [jsSplitFuel]
      split
      · rename_i hpre
        have hc : c = a := by
          simp [List.isPrefixOf] at hpre
          exact hpre.symm
        subst hc
        simp [List.takeWhile_cons]
      · rename_i hpre
        have hc : ¬ c = a := by
          intro h'
          subst h'
          exact hpre (by simp [List.isPrefixOf])
        rw [ih rest (c :: acc) (by simp at h ⊢; omega)]
        simp [List.takeWhile_cons, hc]

/-- Splitting on a single character: the last field is the longest suffix
free of that character (phrased via `getLast?`; when the character does not
occur at all the sole field is the accumulator followed by the string). -/
theorem jsSplitFuel_getLast_single (a : Char) :
    ∀ (fuel : Nat) (s acc : List Char), s.length < fuel →
      (jsSplitFuel [a] fuel s acc).getLast? =
        some (if a ∈ s then (s.reverse.takeWhile (· != a)).reverse
              else acc.reverse ++ s) := by
  intro fuel
  induction fuel with
  | zero =>
    intro s acc h
    exact absurd h (Nat.not_lt_zero _)
  | succ n ih =>
    intro s acc h
    cases s with
    | nil => simp [jsSplitFuel]
    | cons c rest =>
      simp only [jsSplitFuel]
      split
      · rename_i hpre
        have hc : c = a := by
          simp [List.isPrefixOf] at hpre
          exact hpre.symm
        subst hc
        have hrec := ih rest [] (by simp at h ⊢; omega)
        have hdrop : (([c].length - 1) : Nat) = 0 := rfl
        rw [List.getLast?_cons, hdrop, List.drop_zero, hrec]
        by_cases hm : c ∈ rest
        · simp only [Option.getD_some, if_pos hm,
            if_pos (List.mem_cons_self c rest), List.reverse_cons]
          rw [takeWhile_append_of_mem (List.mem_reverse.mpr hm)]
        · simp only [Option.getD_some, if_neg hm, List.reverse_nil, List.nil_append,
            if_pos (List.mem_cons_self c rest), List.reverse_cons]
          have hall : ∀ x ∈ rest.reverse, (x != c) = true := by
            intro x hx
            exact bne_iff_ne.mpr (fun hxa => hm (List.mem_reverse.mp (hxa ▸ hx)))
          rw [takeWhile_append_of_forall hall]
          simp [List.takeWhile_cons]
      · rename_i hpre
        have hc : ¬ c = a := by
          intro h'
          subst h'
          exact hpre (by simp [List.isPrefixOf])
        rw [ih rest (c :: acc) (by simp at h ⊢; omega)]
        have hmem : (a ∈ c :: rest) ↔ a ∈ rest := by
          constructor
          · intro h'
            cases h' with
            | head => exact absurd rfl hc
            | tail _ h'' => exact h''
          · exact List.mem_cons_of_mem _
        by_cases hm : a ∈ rest
        · rw [if_pos hm, if_pos (hmem.mpr hm), List.reverse_cons,
            takeWhile_append_of_mem (List.mem_reverse.mpr hm)]
        · rw [if_neg hm, if_neg (fun h' => hm (hmem.mp h'))]
          simp

/-- Single-character `jsSplit`: the first field is the longest prefix free of
the separator. -/
theorem jsSplit_headD_single (a : Char) (s : List Char) :
    (jsSplit [a] s).headD [] = s.takeWhile (· != a) := by
  have h := jsSplitFuel_headD_single a (s.length + 1) s [] (Nat.lt_succ_self _)
  simpa [jsSplit] using h

/-- Single-character `jsSplit`: the last field is the longest suffix free of
the separator. -/
theorem jsSplit_getLastD_single (a : Char) (s : List Char) :
    (jsSplit [a] s).getLastD [] = (s.reverse.takeWhile (· != a)).reverse := by
  rw [List.getLastD_eq_getLast?]
  simp only [jsSplit]
  rw [jsSplitFuel_getLast_single a (s.length + 1) s [] (Nat.lt_succ_self _)]
  by_cases hm : a ∈ s
  · simp [hm]
  · simp only [if_neg hm, Option.getD_some, List.reverse_nil, List.nil_append]
    have hall : ∀ x ∈ s.reverse, (x != a) = true := by
      intro x hx
      exact bne_iff_ne.mpr (fun hxa => hm (List.mem_reverse.mp (hxa ▸ hx)))
    rw [takeWhile_of_forall hall, List.reverse_reverse]

/-- A string containing the pattern splits into at least two fields. -/
theorem jsSplit_length_two {pat : List Char} (hpat : pat ≠ []) {s : List Char}
    (h : jsIncludes pat s = true) : 2 ≤ (jsSplit pat s).length :=
  jsSplitFuel_length_two hpat (s.length + 1) s [] (Nat.lt_succ_self _) h

/-- A URL on which the claim's reading of the first branch disagrees with the
code: the marker occurs twice in a row. -/
def cexUrl : List Char := "profile.php?id=profile.php?id=7".toList

/-- C10: counterexample — on a URL that contains the marker twice
(`profile.php?id=profile.php?id=7`, where the marker is a prefix and no `'&'`
occurs) the substring strictly between the marker and the first subsequent
`'&'` (here: everything after the first marker, `profile.php?id=7`) is
non-empty, yet `extractPageId` returns the empty string: `split` cuts at the
second marker occurrence too, and field 1 is empty. -/
theorem extractPageId_marker_cex :
    jsIncludes pageMarker cexUrl = true ∧
    pageMarker.isPrefixOf cexUrl = true ∧
    cexUrl.contains '&' = false ∧
    cexUrl.drop pageMarker.length = "profile.php?id=7".toList ∧
    extractPageId cexUrl = [] ∧
    "profile.php?id=7".toList ≠ ([] : List Char) :=
  ⟨by decide, by decide, by decide, by decide, by decide, by decide⟩

/-- C10 (amended): `extractPageId` is a total function of the URL string; on
every input containing `profile.php?id=` the split on the marker has at
least two fields and the result is field 1 — the characters strictly between
the first and the second occurrence of the marker (to the end of the string
when the marker occurs only once) — truncated at its first `'&'` (empty when
nothing follows the first marker); on every other input the result is the
longest `'/'`-free suffix after removing a single trailing slash. -/
theorem extractPageId_spec :
    ∀ url : List Char,
      (jsIncludes pageMarker url = true →
        2 ≤ (jsSplit pageMarker url).length ∧
        extractPageId url = ((jsSplit pageMarker url).getD 1 []).takeWhile (· != '&')) ∧
      (jsIncludes pageMarker url = false →
        extractPageId url =
          ((dropTrailingSlash url).reverse.takeWhile (· != '/')).reverse) := by
  intro url
  constructor
  · intro h
    refine ⟨jsSplit_length_two (by decide) h, ?_⟩
    unfold extractPageId
    rw [if_pos h]
    exact jsSplit_headD_single _ _
  · intro h
    unfold extractPageId
    rw [if_neg (by simp [h])]
    exact jsSplit_getLastD_single _ _

/-- A URL whose page id is marker-delimited and `'&'`-terminated. -/
def wUrl1 : List Char := "https://www.facebook.com/profile.php?id=615&ref=x".toList

/-- A path-style URL with a trailing slash. -/
def wUrl2 : List Char := "https://www.facebook.com/61584296746538/".toList

/-- C10 witness: both branches of the amended statement instantiated at
concrete URLs. -/
theorem extractPageId_spec_witness :
    extractPageId wUrl1 = ((jsSplit pageMarker wUrl1).getD 1 []).takeWhile (· != '&') ∧
    extractPageId wUrl2 =
      ((dropTrailingSlash wUrl2).reverse.takeWhile (· != '/')).reverse :=
  ⟨((extractPageId_spec wUrl1).1 (by decide)).2,
   (extractPageId_spec wUrl2).2 (by decide)⟩

end PageGen
